import Mathlib

/-!
# Threadsafe filesystem adapters of `packages/rspack/src/fileSystem.ts`

A shallow embedding of the two adapter classes `ThreadsafeWritableNodeFS` and
`ThreadsafeReadableNodeFS`, and of the callback code inside them.

Modelling conventions.

* The host filesystem speaks the error-first callback convention.  What the host
  hands to a callback is an `Except HostError α`: `.error err` is a call
  `cb(err)` with a truthy `err`, `.ok v` is a call `cb(null, v)`.
* An operation of the adapter is described by its `Run`: the host methods it
  invoked, the invocations it made of the completion callback that
  `util.promisify` handed to it, and the state of the promise it returned.
* On the read side the replies of the host are inputs of the operation, because
  the order in which the host completes the per-entry lookups of `readDir` is
  not under the control of the adapter.  On the write side the handle is a state
  machine over a backing store, so that the content of the store after an
  operation can be inspected.
* `join`, `mkdirp` and `rmrf` (from `./util/fs`) are parameters.
-/

namespace Rspack

/-! ## Host side data -/

abbrev Path := String

abbrev Content := String

/-- An error object handed by the host to an error-first callback.  It is an
object, hence truthy: the test `if (err)` of the source succeeds on it. -/
structure HostError where
  code : String
  message : String
  deriving DecidableEq, Repr

/-- The error thrown by `new Error(message)`. -/
structure JsError where
  message : String
  deriving DecidableEq, Repr

/-- A host stat result, through the three methods that the adapter calls on it
(`isDirectory()`, `isFile()`, `isSymbolicLink()`) and one field it ignores. -/
structure Stats where
  isDirectory : Bool
  isFile : Bool
  isSymbolicLink : Bool
  size : Nat
  deriving DecidableEq, Repr

/-- Wire shape `JsMetadata` of `@rspack/binding`. -/
structure JsMetadata where
  isDir : Bool
  isFile : Bool
  isSymlink : Bool
  deriving DecidableEq, Repr

/-- Wire shape `JsDirent` of `@rspack/binding`. -/
structure JsDirent where
  path : Path
  metadata : JsMetadata
  deriving DecidableEq, Repr

/-- A method invocation on the filesystem handle (or on one of the two recursive
helpers, which receive the handle as first argument). -/
inductive HostCall where
  | readFile (name : Path)
  | readdir (name : Path)
  | stat (name : Path)
  | lstat (name : Path)
  | realpath (name : Path)
  | writeFile (name : Path) (content : Content)
  | unlink (name : Path)
  | mkdir (name : Path)
  | mkdirp (name : Path)
  | rmrf (name : Path)
  deriving DecidableEq, Repr

/-! ## Callbacks and promises -/

/-- One invocation of an error-first completion callback: `callback(err)` or
`callback(null, value)`. -/
inductive CallbackArg (α : Type) where
  | err (e : HostError)
  | ok (value : α)
  deriving DecidableEq, Repr

/-- State of a promise. -/
inductive Promise (α : Type) where
  | pending
  | resolved (value : α)
  | rejected (e : HostError)
  deriving DecidableEq, Repr

/-- The promise of `util.promisify`, given the invocations (oldest first) of the
callback it passed to the wrapped function: the first invocation settles the
promise, later ones have no effect, and without any invocation the promise
stays pending. -/
def settle {α : Type} : List (CallbackArg α) → Promise α
  | [] => .pending
  | .err e :: _ => .rejected e
  | .ok v :: _ => .resolved v

/-- What one call of an adapter operation did. -/
structure Run (α : Type) where
  /-- Host methods invoked, in invocation order. -/
  hostCalls : List HostCall
  /-- Invocations of the completion callback, oldest first. -/
  callbacks : List (CallbackArg α)
  /-- What the caller gets back. -/
  result : Promise α
  deriving DecidableEq, Repr

/-- A callback-style function `(args, callback) => ...` observed on one call:
the host methods it invoked and the invocations it made of `callback`. -/
structure CbRun (α : Type) where
  hostCalls : List HostCall
  callbacks : List (CallbackArg α)
  deriving DecidableEq, Repr

/-- The function `util.promisify(f)` observed on one call. -/
def promisify {α : Type} (r : CbRun α) : Run α :=
  { hostCalls := r.hostCalls, callbacks := r.callbacks, result := settle r.callbacks }

/-- A bound host method `fs.m.bind(fs)` called with a callback: one invocation
of the method, and the host hands its reply to the callback. -/
def hostMethod {α : Type} (call : HostCall) (reply : Except HostError α) : CbRun α :=
  { hostCalls := [call],
    callbacks := match reply with
      | .error err => [.err err]
      | .ok v => [.ok v] }

/-- Modelled from the spec: `memoizeFn` of `./util/memoize`, which is not among
the sources.  The callable is built by a pure builder on the first call and the
built callable is reused afterwards, so calling the memoized function is calling
what the builder returns; nothing is built before the first call. -/
def memoizeFn {α β : Type} (fn : Unit → α → β) : α → β :=
  fun a => fn () a

/-! ## Read adapter -/

/-- The reduction of a stat result that `readDir`, `stat` and `lstat` send over
the boundary. -/
def metadataOf (stat : Stats) : JsMetadata :=
  { isDir := stat.isDirectory, isFile := stat.isFile, isSymlink := stat.isSymbolicLink }

/-- Mutable variables of one `readDir` call (`dirents`, `count`) together with
the invocations made so far of the completion callback. -/
structure ReadDirState where
  dirents : List JsDirent
  count : Int
  callbacks : List (CallbackArg (List JsDirent))
  deriving DecidableEq, Repr

/-- The callback given to `fs.stat(joinPath, ...)` inside `readDir` (lines
77-93), run on the reply of the host.  `callback(null, dirents)` is recorded
with the content that `dirents` has at that moment. -/
def statCallback (joinPath : Path) (reply : Except HostError Stats)
    (st : ReadDirState) : ReadDirState :=
  match reply with
  | .error err => { st with callbacks := st.callbacks ++ [.err err] }
  | .ok stat =>
    let dirents := st.dirents ++ [{ path := joinPath, metadata := metadataOf stat }]
    let count := st.count - 1
    if count = 0 then
      { dirents := dirents, count := count, callbacks := st.callbacks ++ [.ok dirents] }
    else
      { dirents := dirents, count := count, callbacks := st.callbacks }

/-- Completion of the lookup issued for the `i`-th listed name: its callback
runs with the path it captured.  An index that names no issued lookup is no
completion at all. -/
def deliver (joinPaths : List Path) (st : ReadDirState)
    (ev : Nat × Except HostError Stats) : ReadDirState :=
  match joinPaths[ev.1]? with
  | some joinPath => statCallback joinPath ev.2 st
  | none => st

/-- The function wrapped by `util.promisify` for `readDir` (lines 67-96).
`listing` is the reply of `fs.readdir(arg0, ...)`; `completions` are the
completions of the per-entry `fs.stat` lookups, in the order in which the host
delivers them, each with the index of the listed name it belongs to. -/
def readDirBody (join : Path → String → Path) (arg0 : Path)
    (listing : Except HostError (List String))
    (completions : List (Nat × Except HostError Stats)) : CbRun (List JsDirent) :=
  match listing with
  | .error err => { hostCalls := [.readdir arg0], callbacks := [.err err] }
  | .ok files =>
    let joinPaths := files.map (join arg0)
    let st0 : ReadDirState := { dirents := [], count := files.length, callbacks := [] }
    let st := completions.foldl (deliver joinPaths) st0
    { hostCalls := .readdir arg0 :: joinPaths.map .stat, callbacks := st.callbacks }

/-- The function wrapped by `util.promisify` for `stat` (lines 99-111) and,
with `fs.lstat`, for `lstat` (lines 114-126). -/
def statBody (call : HostCall) (reply : Except HostError Stats) : CbRun JsMetadata :=
  { hostCalls := [call],
    callbacks := match reply with
      | .error err => [.err err]
      | .ok stat => [.ok (metadataOf stat)] }

/-- Interface `ThreadsafeInputNodeFS`: the five operations, each taking the
path and the replies of the host. -/
structure ThreadsafeReadableNodeFS where
  readFile : Path → Except HostError Content → Run Content
  readDir : Path → Except HostError (List String) →
    List (Nat × Except HostError Stats) → Run (List JsDirent)
  stat : Path → Except HostError Stats → Run JsMetadata
  lstat : Path → Except HostError Stats → Run JsMetadata
  realpath : Path → Except HostError Path → Run Path

/-- Outcome of running a constructor: the host methods invoked while it ran and
the instance, or the error thrown. -/
structure Construction (A : Type) where
  hostCalls : List HostCall
  outcome : Except JsError A

/-- Constructor of `ThreadsafeReadableNodeFS` (lines 60-129).  `H` is the type of
filesystem handles and `join fs` stands for `join(fs, ·, ·)`.  The handle is
taken to have the five methods, as the non-null assertions `fs.lstat!` and
`fs.realpath!` of the source take it. -/
def ThreadsafeReadableNodeFS.new {H : Type} (join : H → Path → String → Path)
    (fs : Option H) : Construction ThreadsafeReadableNodeFS :=
  match fs with
  | none =>
    { hostCalls := [],
      outcome := .error ⟨"ThreadsafeReadableNodeFS requires an InputFileSystem"⟩ }
  | some fs =>
    { hostCalls := [],
      outcome := .ok
        { readFile := memoizeFn fun _ name reply => promisify (hostMethod (.readFile name) reply),
          readDir := memoizeFn fun _ arg0 listing completions =>
            promisify (readDirBody (join fs) arg0 listing completions),
          stat := memoizeFn fun _ arg0 reply => promisify (statBody (.stat arg0) reply),
          lstat := memoizeFn fun _ arg0 reply => promisify (statBody (.lstat arg0) reply),
          realpath := memoizeFn fun _ name reply =>
            promisify (hostMethod (.realpath name) reply) } }

/-- Static method `ThreadsafeReadableNodeFS.__into_binding` (lines 131-133). -/
def ThreadsafeReadableNodeFS.__into_binding {H : Type} (join : H → Path → String → Path)
    (fs : Option H) : Construction ThreadsafeReadableNodeFS :=
  ThreadsafeReadableNodeFS.new join fs

/-! ## Write adapter -/

/-- A writable handle over a backing store `σ`: each method takes the store to
the reply it hands to its callback and to the store it leaves behind. -/
structure OutputFileSystem (σ : Type) where
  writeFile : Path → Content → σ → Except HostError Unit × σ
  unlink : Path → σ → Except HostError Unit × σ
  mkdir : Path → σ → Except HostError Unit × σ

/-- Interface `ThreadsafeOutputNodeFS`: the five operations, each taking its
arguments and the store, and giving what the call did and the store after it. -/
structure ThreadsafeOutputNodeFS (σ : Type) where
  writeFile : Path → Content → σ → Run Unit × σ
  removeFile : Path → σ → Run Unit × σ
  mkdir : Path → σ → Run Unit × σ
  mkdirp : Path → σ → Run (Option String) × σ
  removeDirAll : Path → σ → Run (Option String) × σ

/-- A method with an empty body: it returns `undefined` at once, which the
caller takes as completion with no value. -/
def noop {σ α : Type} (value : α) (store : σ) : Run α × σ :=
  ({ hostCalls := [], callbacks := [], result := .resolved value }, store)

/-- The constant `NOOP_FILESYSTEM` (lines 18-24). -/
def NOOP_FILESYSTEM {σ : Type} : ThreadsafeOutputNodeFS σ :=
  { writeFile := fun _ _ store => noop () store,
    removeFile := fun _ store => noop () store,
    mkdir := fun _ store => noop () store,
    mkdirp := fun _ store => noop none store,
    removeDirAll := fun _ store => noop none store }

/-- A promisified method of the handle (or helper) called on a store: the
method runs once on the store and its reply settles the promise. -/
def promisifyOn {σ α : Type} (call : HostCall) (method : σ → Except HostError α × σ)
    (store : σ) : Run α × σ :=
  (promisify (hostMethod call (method store).1), (method store).2)

/-- Constructor of `ThreadsafeWritableNodeFS` (lines 33-44).  `mkdirp` and
`rmrf` are the recursive helpers of `./util/fs`. -/
def ThreadsafeWritableNodeFS.new {σ : Type}
    (mkdirp rmrf : OutputFileSystem σ → Path → σ → Except HostError (Option String) × σ)
    (fs : Option (OutputFileSystem σ)) : Construction (ThreadsafeOutputNodeFS σ) :=
  match fs with
  | none => { hostCalls := [], outcome := .ok NOOP_FILESYSTEM }
  | some fs =>
    { hostCalls := [],
      outcome := .ok
        { writeFile := memoizeFn fun _ name content =>
            promisifyOn (.writeFile name content) (fs.writeFile name content),
          removeFile := memoizeFn fun _ name => promisifyOn (.unlink name) (fs.unlink name),
          mkdir := memoizeFn fun _ name => promisifyOn (.mkdir name) (fs.mkdir name),
          mkdirp := memoizeFn fun _ name => promisifyOn (.mkdirp name) (mkdirp fs name),
          removeDirAll := memoizeFn fun _ name => promisifyOn (.rmrf name) (rmrf fs name) } }

/-- Static method `ThreadsafeWritableNodeFS.__into_binding` (lines 46-48). -/
def ThreadsafeWritableNodeFS.__into_binding {σ : Type}
    (mkdirp rmrf : OutputFileSystem σ → Path → σ → Except HostError (Option String) × σ)
    (fs : Option (OutputFileSystem σ)) : Construction (ThreadsafeOutputNodeFS σ) :=
  ThreadsafeWritableNodeFS.new mkdirp rmrf fs

/-! ## Reading a run of `readDir` -/

/-- Errors of the failing completions, in completion order. -/
def failuresOf (completions : List (Nat × Except HostError Stats)) : List HostError :=
  completions.filterMap fun ev =>
    match ev.2 with
    | .error err => some err
    | .ok _ => none

/-- Entries pushed by the successful completions, in completion order: the
`i`-th lookup pushes the path it was issued for. -/
def entriesOf (joinPaths : List Path) (completions : List (Nat × Except HostError Stats)) :
    List JsDirent :=
  completions.filterMap fun ev =>
    match ev.2 with
    | .error _ => none
    | .ok stat => some { path := joinPaths.getD ev.1 "", metadata := metadataOf stat }

/-! ## A host for the examples -/

/-- The files of an in-memory volume, newest write first: names with contents,
as `Volume.fromJSON` takes them and `toJSON` gives them back. -/
abbrev Volume := List (Path × Content)

/-- Direct read of a file from the volume (`toJSON()[name]`). -/
def Volume.read (name : Path) (vol : Volume) : Option Content :=
  vol.lookup name

/-- A writable handle over a volume: `writeFile` stores the content under the
name, `unlink` drops the name, `mkdir` leaves the files as they are. -/
def Volume.fs : OutputFileSystem Volume :=
  { writeFile := fun name content vol => (.ok (), (name, content) :: vol),
    unlink := fun name vol => (.ok (), vol.filter fun entry => entry.1 != name),
    mkdir := fun _ vol => (.ok (), vol) }

/-- Stand-in for the recursive helpers in the examples: they report success
without a value and leave the store alone. -/
def Volume.helper (_ : OutputFileSystem Volume) (_ : Path) (vol : Volume) :
    Except HostError (Option String) × Volume :=
  (.ok none, vol)

/-! ## Lemmas on the fan-out -/

theorem failuresOf_append (xs ys : List (Nat × Except HostError Stats)) :
    failuresOf (xs ++ ys) = failuresOf xs ++ failuresOf ys := by
  simp [failuresOf, List.filterMap_append]

theorem entriesOf_append (joinPaths : List Path) (xs ys : List (Nat × Except HostError Stats)) :
    entriesOf joinPaths (xs ++ ys) = entriesOf joinPaths xs ++ entriesOf joinPaths ys := by
  simp [entriesOf, List.filterMap_append]

theorem entriesOf_length_add (joinPaths : List Path)
    (evs : List (Nat × Except HostError Stats)) :
    (entriesOf joinPaths evs).length + (failuresOf evs).length = evs.length := by
  induction evs with
  | nil => simp [entriesOf, failuresOf]
  | cons ev evs ih =>
    obtain ⟨i, r⟩ := ev
    cases r with
    | error e =>
      simp only [entriesOf, failuresOf, List.filterMap_cons, List.length_cons] at ih ⊢
      omega
    | ok s =>
      simp only [entriesOf, failuresOf, List.filterMap_cons, List.length_cons] at ih ⊢
      omega

/-- State of the fan-out after the completions `evs`, as long as no more
completions arrived than lookups were issued. -/
theorem foldl_deliver (joinPaths : List Path) (evs : List (Nat × Except HostError Stats))
    (hb : ∀ ev ∈ evs, ev.1 < joinPaths.length) (hlen : evs.length ≤ joinPaths.length) :
    evs.foldl (deliver joinPaths)
        { dirents := [], count := joinPaths.length, callbacks := [] } =
      { dirents := entriesOf joinPaths evs,
        count := (joinPaths.length : Int) - (entriesOf joinPaths evs).length,
        callbacks := (failuresOf evs).map CallbackArg.err ++
          if (entriesOf joinPaths evs).length = joinPaths.length ∧ 0 < joinPaths.length then
            [CallbackArg.ok (entriesOf joinPaths evs)]
          else [] } := by
  induction evs using List.reverseRecOn with
  | nil =>
    have h0 : ¬ (0 = joinPaths.length ∧ 0 < joinPaths.length) := by omega
    simp [entriesOf, failuresOf, h0]
  | append_singleton evs ev ih =>
    have hb1 : ∀ e ∈ evs, e.1 < joinPaths.length := fun e he =>
      hb e (List.mem_append_left _ he)
    have hlen1 : evs.length < joinPaths.length := by
      simp only [List.length_append, List.length_singleton] at hlen
      omega
    have hev : ev.1 < joinPaths.length := hb ev (by simp)
    have hsum := entriesOf_length_add joinPaths evs
    have hlt : (entriesOf joinPaths evs).length < joinPaths.length := by omega
    have h1 : ¬ ((entriesOf joinPaths evs).length = joinPaths.length ∧ 0 < joinPaths.length) := by
      omega
    rw [List.foldl_append, ih hb1 (by omega)]
    simp only [List.foldl_cons, List.foldl_nil, deliver, List.getElem?_eq_getElem hev, h1,
      if_false, List.append_nil]
    obtain ⟨i, r⟩ := ev
    cases r with
    | error e =>
      have he : entriesOf joinPaths [(i, (Except.error e : Except HostError Stats))] = [] := by
        simp [entriesOf]
      have hf : failuresOf [(i, (Except.error e : Except HostError Stats))] = [e] := by
        simp [failuresOf]
      simp only [statCallback, entriesOf_append, failuresOf_append, he, hf, List.append_nil,
        List.map_append, List.map_cons, List.map_nil, h1, if_false]
    | ok s =>
      have he : entriesOf joinPaths [(i, Except.ok s)] =
          [{ path := joinPaths[i], metadata := metadataOf s }] := by
        have hev2 : i < joinPaths.length := hev
        simp [entriesOf, List.getElem?_eq_getElem hev2]
      have hf : failuresOf [(i, (Except.ok s : Except HostError Stats))] = [] := by
        simp [failuresOf]
      simp only [statCallback, entriesOf_append, failuresOf_append, he, hf, List.append_nil,
        List.length_append, List.length_singleton]
      by_cases hc : (entriesOf joinPaths evs).length + 1 = joinPaths.length
      · have h2 : (joinPaths.length : Int) - ((entriesOf joinPaths evs).length : Int) - 1 = 0 := by
          omega
        have h3 : (entriesOf joinPaths evs).length + 1 = joinPaths.length ∧
            0 < joinPaths.length := ⟨hc, by omega⟩
        rw [if_pos h2, if_pos h3]
        congr 1
        push_cast
        omega
      · have h2 : ¬ ((joinPaths.length : Int) - ((entriesOf joinPaths evs).length : Int) - 1 = 0) := by
          omega
        have h3 : ¬ ((entriesOf joinPaths evs).length + 1 = joinPaths.length ∧
            0 < joinPaths.length) := fun h => hc h.1
        rw [if_neg h2, if_neg h3]
        simp only [List.append_nil]
        congr 1
        push_cast
        omega

theorem length_le_of_nodup_of_lt (n : Nat) (l : List Nat) (hnodup : l.Nodup)
    (hlt : ∀ i ∈ l, i < n) : l.length ≤ n := by
  have hsub : l ⊆ List.range n := fun i hi => List.mem_range.mpr (hlt i hi)
  have h := (List.subperm_of_subset hnodup hsub).length_le
  simpa using h

/-- Callback invocations of a `readDir` call whose listing succeeded, when each
lookup completes at most once. -/
theorem readDirBody_ok (join : Path → String → Path) (arg0 : Path) (files : List String)
    (evs : List (Nat × Except HostError Stats))
    (hnodup : (evs.map Prod.fst).Nodup) (hissued : ∀ ev ∈ evs, ev.1 < files.length) :
    readDirBody join arg0 (.ok files) evs =
      { hostCalls := .readdir arg0 :: (files.map (join arg0)).map HostCall.stat,
        callbacks := (failuresOf evs).map CallbackArg.err ++
          if (entriesOf (files.map (join arg0)) evs).length = files.length ∧ 0 < files.length then
            [CallbackArg.ok (entriesOf (files.map (join arg0)) evs)]
          else [] } := by
  have hlen : evs.length ≤ files.length := by
    have h := length_le_of_nodup_of_lt files.length (evs.map Prod.fst) hnodup (by
      intro i hi
      obtain ⟨ev, hev, rfl⟩ := List.mem_map.mp hi
      exact hissued ev hev)
    simpa using h
  have hfold := foldl_deliver (files.map (join arg0)) evs (by simpa using hissued)
    (by simpa using hlen)
  simp only [List.length_map] at hfold
  simp only [readDirBody, hfold]

/-- With no lookup issued, no completion changes the state. -/
theorem foldl_deliver_nil (evs : List (Nat × Except HostError Stats)) (st : ReadDirState) :
    evs.foldl (deliver []) st = st := by
  induction evs with
  | nil => rfl
  | cons ev evs ih => simpa [deliver] using ih

theorem entriesOf_path (joinPaths : List Path) (evs : List (Nat × Except HostError Stats))
    (hall : failuresOf evs = []) :
    (entriesOf joinPaths evs).map JsDirent.path = evs.map fun ev => joinPaths.getD ev.1 "" := by
  induction evs with
  | nil => simp [entriesOf]
  | cons ev evs ih =>
    obtain ⟨i, r⟩ := ev
    cases r with
    | error e => simp [failuresOf] at hall
    | ok s =>
      have hall1 : failuresOf evs = [] := by simpa [failuresOf] using hall
      have ih1 := ih hall1
      simp only [entriesOf, List.filterMap_cons, List.map_cons] at ih1 ⊢
      rw [ih1]

theorem map_getD_range (l : List Path) :
    (List.range l.length).map (fun i => l.getD i "") = l := by
  apply List.ext_getElem
  · simp
  · intro i h1 h2
    simp only [List.length_map, List.length_range] at h1
    simp [List.getD_eq_getElem?_getD, List.getElem?_eq_getElem h1]


theorem getD_map_join (f : String → Path) (files : List String) (i : Nat)
    (hi : i < files.length) : (files.map f).getD i "" = f (files.getD i "") := by
  simp [List.getD_eq_getElem?_getD, List.getElem?_eq_getElem hi]

theorem mem_of_settle_resolved {α : Type} (cbs : List (CallbackArg α)) (v : α)
    (h : settle cbs = .resolved v) : CallbackArg.ok v ∈ cbs := by
  cases cbs with
  | nil => simp [settle] at h
  | cons cb rest =>
    cases cb with
    | err e => simp [settle] at h
    | ok w =>
      simp only [settle, Promise.resolved.injEq] at h
      simp [h]

/-! ## The read adapter: `readDir` -/

/-- C1, as the code runs it: when `fs.readdir` lists zero names, `readDir`
calls `fs.readdir` and no `fs.stat`, but the completion callback is never
invoked, whatever arrives later: the promise stays pending instead of resolving
to the empty sequence. -/
theorem readDir_empty_listing_stays_pending {H : Type} (join : H → Path → String → Path)
    (fs : H) (d : Path) (completions : List (Nat × Except HostError Stats)) :
    ∃ a, (ThreadsafeReadableNodeFS.new join (some fs)).outcome = .ok a ∧
      a.readDir d (.ok []) completions =
        { hostCalls := [.readdir d], callbacks := [], result := .pending } := by
  refine ⟨_, rfl, ?_⟩
  simp [memoizeFn, promisify, readDirBody, foldl_deliver_nil, settle]

/-- C6: when `fs.readdir(d)` reports the error `e`, `readDir(d)` invokes the
completion callback once, with `e`, and is rejected with exactly `e`; the only
host call is the listing itself (no `fs.stat`), and no entries are delivered. -/
theorem readDir_listing_failure {H : Type} (join : H → Path → String → Path)
    (fs : H) (d : Path) (e : HostError) (completions : List (Nat × Except HostError Stats)) :
    ∃ a, (ThreadsafeReadableNodeFS.new join (some fs)).outcome = .ok a ∧
      a.readDir d (.error e) completions =
        { hostCalls := [.readdir d], callbacks := [.err e], result := .rejected e } ∧
      (∀ p, HostCall.stat p ∉ (a.readDir d (.error e) completions).hostCalls) ∧
      (∀ entries, CallbackArg.ok entries ∉ (a.readDir d (.error e) completions).callbacks) := by
  refine ⟨_, rfl, ?_, ?_, ?_⟩ <;>
    simp [memoizeFn, promisify, readDirBody, settle]

/-- C3: the listing returned the names `files`, each per-entry lookup completes
at most once (in particular: every completion order of all of them), and `e` is
the error of the first failing completion.  Then `readDir` is rejected with
exactly `e`, and the completion callback is never invoked with entries. -/
theorem readDir_first_failure {H : Type} (join : H → Path → String → Path)
    (fs : H) (d : Path) (files : List String)
    (completions : List (Nat × Except HostError Stats)) (e : HostError)
    (hnodup : (completions.map Prod.fst).Nodup)
    (hissued : ∀ ev ∈ completions, ev.1 < files.length)
    (hfirst : (failuresOf completions).head? = some e) :
    ∃ a, (ThreadsafeReadableNodeFS.new join (some fs)).outcome = .ok a ∧
      (a.readDir d (.ok files) completions).result = .rejected e ∧
      (∀ entries, (a.readDir d (.ok files) completions).result ≠ .resolved entries) ∧
      (∀ entries, CallbackArg.ok entries ∉ (a.readDir d (.ok files) completions).callbacks) := by
  have hbody := readDirBody_ok (join fs) d files completions hnodup hissued
  have hlen := length_le_of_nodup_of_lt files.length (completions.map Prod.fst) hnodup (by
    intro i hi
    obtain ⟨ev, hev, rfl⟩ := List.mem_map.mp hi
    exact hissued ev hev)
  have hsum := entriesOf_length_add (files.map (join fs d)) completions
  obtain ⟨rest, hrest⟩ : ∃ rest, failuresOf completions = e :: rest := by
    cases hf : failuresOf completions with
    | nil => simp [hf] at hfirst
    | cons x rest =>
      rw [hf] at hfirst
      simp only [List.head?_cons, Option.some.injEq] at hfirst
      exact ⟨rest, by rw [hfirst]⟩
  have hcond : ¬ ((entriesOf (files.map (join fs d)) completions).length = files.length ∧
      0 < files.length) := by
    rw [hrest] at hsum
    simp only [List.length_map, List.length_cons] at hlen hsum
    omega
  refine ⟨_, rfl, ?_⟩
  simp only [memoizeFn, promisify, hbody, hrest, if_neg hcond, List.append_nil, List.map_cons,
    settle]
  refine ⟨trivial, ?_, ?_⟩
  · intro entries h
    cases h
  · intro entries h
    simp at h


/-- C5: the listing returned the names `files` and each per-entry lookup
completes at most once, in any interleaving.  Every success delivered, to the
completion callback or as the resolved value, carries exactly one entry per
listed name (as many entries as names, their paths being the joined names up to
order), and none is delivered when some lookup failed.  When the listing itself
failed, no success is delivered either. -/
theorem readDir_all_or_nothing {H : Type} (join : H → Path → String → Path)
    (fs : H) (d : Path) (files : List String)
    (completions : List (Nat × Except HostError Stats))
    (hnodup : (completions.map Prod.fst).Nodup)
    (hissued : ∀ ev ∈ completions, ev.1 < files.length) :
    ∃ a, (ThreadsafeReadableNodeFS.new join (some fs)).outcome = .ok a ∧
      (∀ entries,
        (CallbackArg.ok entries ∈ (a.readDir d (.ok files) completions).callbacks ∨
          (a.readDir d (.ok files) completions).result = .resolved entries) →
        entries.length = files.length ∧
        (entries.map JsDirent.path).Perm (files.map (join fs d)) ∧
        failuresOf completions = []) ∧
      (∀ e entries,
        CallbackArg.ok entries ∉ (a.readDir d (.error e) completions).callbacks ∧
        (a.readDir d (.error e) completions).result ≠ .resolved entries) := by
  have hbody := readDirBody_ok (join fs) d files completions hnodup hissued
  have hbound : ∀ i ∈ completions.map Prod.fst, i < files.length := by
    intro i hi
    obtain ⟨ev, hev, rfl⟩ := List.mem_map.mp hi
    exact hissued ev hev
  have hlen := length_le_of_nodup_of_lt files.length (completions.map Prod.fst) hnodup hbound
  have hsum := entriesOf_length_add (files.map (join fs d)) completions
  refine ⟨_, rfl, ?_, ?_⟩
  · intro entries h
    have hmem : CallbackArg.ok entries ∈
        (promisify (readDirBody (join fs) d (.ok files) completions)).callbacks := by
      rcases h with h | h
      · exact h
      · exact mem_of_settle_resolved _ _ h
    simp only [promisify, hbody, List.mem_append, List.mem_map, reduceCtorEq, and_false,
      exists_false, false_or] at hmem
    by_cases hcond : (entriesOf (files.map (join fs d)) completions).length = files.length ∧
        0 < files.length
    · rw [if_pos hcond] at hmem
      simp only [List.mem_singleton, CallbackArg.ok.injEq] at hmem
      subst hmem
      simp only [List.length_map] at hlen
      have hnone : failuresOf completions = [] := by
        apply List.eq_nil_of_length_eq_zero
        omega
      have hfull : completions.length = files.length := by
        rw [hnone] at hsum
        simp only [List.length_nil, add_zero] at hsum
        omega
      have hperm : (completions.map Prod.fst).Perm (List.range files.length) := by
        have hsub : completions.map Prod.fst ⊆ List.range files.length :=
          fun i hi => List.mem_range.mpr (hbound i hi)
        exact (List.subperm_of_subset hnodup hsub).perm_of_length_le (by simp [hfull])
      refine ⟨hcond.1, ?_, hnone⟩
      rw [entriesOf_path _ _ hnone]
      have hmap : (completions.map fun ev => (files.map (join fs d)).getD ev.1 "") =
          (completions.map Prod.fst).map fun i => (files.map (join fs d)).getD i "" := by
        simp [List.map_map, Function.comp_def]
      rw [hmap]
      have h2 := hperm.map fun i => (files.map (join fs d)).getD i ""
      have h3 := map_getD_range (files.map (join fs d))
      simp only [List.length_map] at h3
      rw [h3] at h2
      exact h2
    · rw [if_neg hcond] at hmem
      simp at hmem
  · intro e entries
    simp [memoizeFn, promisify, readDirBody, settle]

/-- C2: the listing returned `N >= 1` names and every per-entry lookup completes
once and succeeds, `done` giving the completions in the order of their arrival
(index of the listed name, stat result).  Then `readDir` invokes the completion
callback once and resolves with exactly `N` entries, in completion order, the
entry of a completion being the joined path of its name with the reduction of
its own stat result; the paths are the joined names, one per listed name. -/
theorem readDir_all_lookups_succeed {H : Type} (join : H → Path → String → Path)
    (fs : H) (d : Path) (files : List String) (done : List (Nat × Stats))
    (hN : 1 ≤ files.length)
    (honce : (done.map Prod.fst).Perm (List.range files.length)) :
    ∃ a, (ThreadsafeReadableNodeFS.new join (some fs)).outcome = .ok a ∧
      (a.readDir d (.ok files) (done.map fun ev => (ev.1, .ok ev.2))).result =
        .resolved (done.map fun ev =>
          { path := join fs d (files.getD ev.1 ""),
            metadata :=
              { isDir := ev.2.isDirectory, isFile := ev.2.isFile,
                isSymlink := ev.2.isSymbolicLink } }) ∧
      (a.readDir d (.ok files) (done.map fun ev => (ev.1, .ok ev.2))).callbacks =
        [.ok (done.map fun ev =>
          { path := join fs d (files.getD ev.1 ""),
            metadata :=
              { isDir := ev.2.isDirectory, isFile := ev.2.isFile,
                isSymlink := ev.2.isSymbolicLink } })] ∧
      (a.readDir d (.ok files) (done.map fun ev => (ev.1, .ok ev.2))).hostCalls =
        .readdir d :: files.map (fun name => HostCall.stat (join fs d name)) ∧
      done.length = files.length ∧
      (done.map fun ev => join fs d (files.getD ev.1 "")).Perm (files.map (join fs d)) := by
  have hfst : ((done.map fun ev => ((ev.1, .ok ev.2) : Nat × Except HostError Stats)).map
      Prod.fst) = done.map Prod.fst := by
    simp [List.map_map, Function.comp_def]
  have hnodup : (done.map Prod.fst).Nodup := honce.nodup_iff.mpr (List.nodup_range _)
  have hbound : ∀ ev ∈ done, ev.1 < files.length := by
    intro ev hev
    have : ev.1 ∈ List.range files.length :=
      honce.subset (List.mem_map.mpr ⟨ev, hev, rfl⟩)
    exact List.mem_range.mp this
  have hdone : done.length = files.length := by
    have := honce.length_eq
    simpa using this
  have hbody := readDirBody_ok (join fs) d files
    (done.map fun ev => ((ev.1, .ok ev.2) : Nat × Except HostError Stats))
    (by rw [hfst]; exact hnodup)
    (by
      intro ev hev
      obtain ⟨x, hx, rfl⟩ := List.mem_map.mp hev
      exact hbound x hx)
  have hfail : failuresOf (done.map fun ev => ((ev.1, .ok ev.2) : Nat × Except HostError Stats))
      = [] := by
    simp [failuresOf, List.filterMap_map, Function.comp_def]
  have hentries : entriesOf (files.map (join fs d))
      (done.map fun ev => ((ev.1, .ok ev.2) : Nat × Except HostError Stats)) =
      done.map fun ev =>
        ({ path := join fs d (files.getD ev.1 ""),
           metadata :=
            { isDir := ev.2.isDirectory, isFile := ev.2.isFile,
              isSymlink := ev.2.isSymbolicLink } } : JsDirent) := by
    simp only [entriesOf, List.filterMap_map, Function.comp_def, metadataOf]
    have hgen : ∀ l : List (Nat × Stats), (∀ ev ∈ l, ev.1 < files.length) →
        l.filterMap (fun x => some
          ({ path := (files.map (join fs d)).getD x.1 "",
             metadata :=
              { isDir := x.2.isDirectory, isFile := x.2.isFile,
                isSymlink := x.2.isSymbolicLink } } : JsDirent)) =
        l.map fun ev =>
          ({ path := join fs d (files.getD ev.1 ""),
             metadata :=
              { isDir := ev.2.isDirectory, isFile := ev.2.isFile,
                isSymlink := ev.2.isSymbolicLink } } : JsDirent) := by
      intro l
      induction l with
      | nil => intro _; rfl
      | cons x l ih =>
        intro hl
        simp only [List.filterMap_cons, List.map_cons]
        rw [ih (fun ev hev => hl ev (List.mem_cons_of_mem _ hev)),
          getD_map_join (join fs d) files x.1 (hl x (List.mem_cons_self _ _))]
    exact hgen done hbound
  have hcond : (done.map fun ev =>
        ({ path := join fs d (files.getD ev.1 ""),
           metadata :=
            { isDir := ev.2.isDirectory, isFile := ev.2.isFile,
              isSymlink := ev.2.isSymbolicLink } } : JsDirent)).length = files.length ∧
      0 < files.length := ⟨by simpa using hdone, hN⟩
  rw [hfail, hentries, if_pos hcond] at hbody
  refine ⟨_, rfl, ?_, ?_, ?_, hdone, ?_⟩
  · simp only [memoizeFn, promisify, hbody, List.map_nil, List.nil_append, settle]
  · simp only [memoizeFn, promisify, hbody, List.map_nil, List.nil_append]
  · simp only [memoizeFn, promisify, hbody, List.map_map, Function.comp_def]
  · have h2 := honce.map fun i => (files.map (join fs d)).getD i ""
    have h3 := map_getD_range (files.map (join fs d))
    simp only [List.length_map] at h3
    rw [h3, List.map_map] at h2
    have h4 : (done.map fun ev => join fs d (files.getD ev.1 "")) =
        done.map ((fun i => (files.map (join fs d)).getD i "") ∘ Prod.fst) := by
      apply List.map_congr_left
      intro ev hev
      simp only [Function.comp_apply]
      rw [getD_map_join (join fs d) files ev.1 (hbound ev hev)]
    rw [h4]
    exact h2


/-- C4, as stated, fails: with two listed names whose lookups both fail, the
completion callback is invoked twice, once per failing lookup (the promise keeps
the first error). -/
theorem readDir_two_failures_two_invocations :
    ∃ a, (ThreadsafeReadableNodeFS.new (fun (_ : Unit) dir name => dir ++ name)
        (some ())).outcome = .ok a ∧
      (a.readDir "/" (.ok ["a.txt", "b"])
        [(0, .error ⟨"EACCES", "a.txt"⟩), (1, .error ⟨"ENOENT", "b"⟩)]).callbacks =
        [.err ⟨"EACCES", "a.txt"⟩, .err ⟨"ENOENT", "b"⟩] ∧
      (a.readDir "/" (.ok ["a.txt", "b"])
        [(0, .error ⟨"EACCES", "a.txt"⟩), (1, .error ⟨"ENOENT", "b"⟩)]).callbacks.length = 2 ∧
      (a.readDir "/" (.ok ["a.txt", "b"])
        [(0, .error ⟨"EACCES", "a.txt"⟩), (1, .error ⟨"ENOENT", "b"⟩)]).result =
        .rejected ⟨"EACCES", "a.txt"⟩ := by
  refine ⟨_, rfl, ?_, ?_, ?_⟩ <;> rfl

/-- C4, amended: the promise of a `readDir` call is settled by the first
invocation of the completion callback and by that one only, and it is settled
whenever the listing fails or returns `N >= 1` names whose lookups each complete
once.  The callback is invoked once with the listing error; once with the
entries when every lookup succeeds; and once per failing lookup, with the
errors in completion order and never with entries, when some lookup fails. -/
theorem readDir_settled_by_first_invocation {H : Type} (join : H → Path → String → Path)
    (fs : H) (d : Path) (files : List String)
    (completions : List (Nat × Except HostError Stats))
    (hN : 1 ≤ files.length)
    (honce : (completions.map Prod.fst).Perm (List.range files.length)) :
    ∃ a, (ThreadsafeReadableNodeFS.new join (some fs)).outcome = .ok a ∧
      (∀ e, (a.readDir d (.error e) completions).callbacks = [.err e] ∧
        (a.readDir d (.error e) completions).result = .rejected e) ∧
      (a.readDir d (.ok files) completions).result =
        settle (a.readDir d (.ok files) completions).callbacks ∧
      (a.readDir d (.ok files) completions).result ≠ .pending ∧
      (failuresOf completions = [] →
        (a.readDir d (.ok files) completions).callbacks =
          [.ok (entriesOf (files.map (join fs d)) completions)]) ∧
      (failuresOf completions ≠ [] →
        (a.readDir d (.ok files) completions).callbacks =
          (failuresOf completions).map CallbackArg.err) := by
  have hnodup : (completions.map Prod.fst).Nodup := honce.nodup_iff.mpr (List.nodup_range _)
  have hbound : ∀ ev ∈ completions, ev.1 < files.length := by
    intro ev hev
    have : ev.1 ∈ List.range files.length :=
      honce.subset (List.mem_map.mpr ⟨ev, hev, rfl⟩)
    exact List.mem_range.mp this
  have hfull : completions.length = files.length := by
    have := honce.length_eq
    simpa using this
  have hbody := readDirBody_ok (join fs) d files completions hnodup hbound
  have hsum := entriesOf_length_add (files.map (join fs d)) completions
  have hcb : (failuresOf completions = [] →
        (promisify (readDirBody (join fs) d (.ok files) completions)).callbacks =
          [.ok (entriesOf (files.map (join fs d)) completions)]) ∧
      (failuresOf completions ≠ [] →
        (promisify (readDirBody (join fs) d (.ok files) completions)).callbacks =
          (failuresOf completions).map CallbackArg.err) := by
    constructor
    · intro hnone
      have hcond : (entriesOf (files.map (join fs d)) completions).length = files.length ∧
          0 < files.length := by
        rw [hnone] at hsum
        simp only [List.length_nil, add_zero] at hsum
        exact ⟨by omega, hN⟩
      simp only [promisify, hbody, hnone, if_pos hcond, List.map_nil, List.nil_append]
    · intro hsome
      have hpos : 0 < (failuresOf completions).length := List.length_pos.mpr hsome
      have hcond : ¬ ((entriesOf (files.map (join fs d)) completions).length = files.length ∧
          0 < files.length) := by omega
      simp only [promisify, hbody, if_neg hcond, List.append_nil]
  refine ⟨_, rfl, ?_, rfl, ?_, hcb.1, hcb.2⟩
  · intro e
    simp [memoizeFn, promisify, readDirBody, settle]
  · show settle (promisify (readDirBody (join fs) d (.ok files) completions)).callbacks ≠ .pending
    by_cases hnone : failuresOf completions = []
    · rw [hcb.1 hnone]
      simp [settle]
    · rw [hcb.2 hnone]
      cases hf : failuresOf completions with
      | nil => exact absurd hf hnone
      | cons x rest => simp [settle]


/-- Witness of C2, the scenario of the spec: the handle holds "/a.txt" and
"/b/c.txt", the listing of "/" is a.txt and b, and the lookup of b completes
before the one of a.txt; `readDir("/")` resolves with b as a directory and a.txt
as a file. -/
theorem readDir_all_lookups_succeed_witness :
    1 ≤ ["a.txt", "b"].length ∧
    ∃ a, (ThreadsafeReadableNodeFS.new (fun (_ : Unit) dir name => dir ++ name)
        (some ())).outcome = .ok a ∧
      (a.readDir "/" (.ok ["a.txt", "b"])
        [(1, .ok ⟨true, false, false, 0⟩), (0, .ok ⟨false, true, false, 1⟩)]).result =
        .resolved
          [{ path := "/b", metadata := { isDir := true, isFile := false, isSymlink := false } },
           { path := "/a.txt",
             metadata := { isDir := false, isFile := true, isSymlink := false } }] := by
  refine ⟨by decide, ?_⟩
  obtain ⟨a, ha, hres, _⟩ := readDir_all_lookups_succeed
    (fun (_ : Unit) dir name => dir ++ name) () "/" ["a.txt", "b"]
    [(1, ⟨true, false, false, 0⟩), (0, ⟨false, true, false, 1⟩)] (by decide)
    (List.Perm.swap 0 1 [])
  exact ⟨a, ha, hres⟩

/-- Witness of C3: three names, the lookup of the third fails first, then the
lookup of the first succeeds and the lookup of the second fails; the call is
rejected with the error of the third. -/
theorem readDir_first_failure_witness :
    ∃ a, (ThreadsafeReadableNodeFS.new (fun (_ : Unit) dir name => dir ++ name)
        (some ())).outcome = .ok a ∧
      (a.readDir "/" (.ok ["a.txt", "b", "c"])
        [(2, .error ⟨"EACCES", "c"⟩), (0, .ok ⟨false, true, false, 1⟩),
          (1, .error ⟨"ENOENT", "b"⟩)]).result = .rejected ⟨"EACCES", "c"⟩ := by
  obtain ⟨a, ha, hres, _⟩ := readDir_first_failure
    (fun (_ : Unit) dir name => dir ++ name) () "/" ["a.txt", "b", "c"]
    [(2, .error ⟨"EACCES", "c"⟩), (0, .ok ⟨false, true, false, 1⟩),
      (1, .error ⟨"ENOENT", "b"⟩)] ⟨"EACCES", "c"⟩ (by decide) (by decide) rfl
  exact ⟨a, ha, hres⟩

/-- Witness of C5: two names, only the lookup of the second has completed; no
success has been delivered, and the invariant holds of every success. -/
theorem readDir_all_or_nothing_witness :
    ∃ a, (ThreadsafeReadableNodeFS.new (fun (_ : Unit) dir name => dir ++ name)
        (some ())).outcome = .ok a ∧
      (a.readDir "/" (.ok ["a.txt", "b"]) [(1, .ok ⟨true, false, false, 0⟩)]).result =
        .pending ∧
      ∀ entries,
        (CallbackArg.ok entries ∈
            (a.readDir "/" (.ok ["a.txt", "b"])
              [(1, .ok ⟨true, false, false, 0⟩)]).callbacks ∨
          (a.readDir "/" (.ok ["a.txt", "b"]) [(1, .ok ⟨true, false, false, 0⟩)]).result =
            .resolved entries) →
        entries.length = 2 := by
  obtain ⟨a, ha, hall, _⟩ := readDir_all_or_nothing
    (fun (_ : Unit) dir name => dir ++ name) () "/" ["a.txt", "b"]
    [(1, .ok ⟨true, false, false, 0⟩)] (by decide) (by decide)
  refine ⟨a, ha, ?_, fun entries h => (hall entries h).1⟩
  simp only [ThreadsafeReadableNodeFS.new, Except.ok.injEq] at ha
  subst ha
  rfl

/-- Witness of C4 (amended): two names, the first lookup fails and the second
succeeds; the callback is invoked once, with the error, and the promise is
rejected with it. -/
theorem readDir_settled_by_first_invocation_witness :
    ∃ a, (ThreadsafeReadableNodeFS.new (fun (_ : Unit) dir name => dir ++ name)
        (some ())).outcome = .ok a ∧
      (a.readDir "/" (.ok ["a.txt", "b"])
        [(0, .error ⟨"EACCES", "a.txt"⟩), (1, .ok ⟨true, false, false, 0⟩)]).callbacks =
        [.err ⟨"EACCES", "a.txt"⟩] ∧
      (a.readDir "/" (.ok ["a.txt", "b"])
        [(0, .error ⟨"EACCES", "a.txt"⟩), (1, .ok ⟨true, false, false, 0⟩)]).result ≠
        .pending := by
  obtain ⟨a, ha, _, _, hsettled, _, hfail⟩ := readDir_settled_by_first_invocation
    (fun (_ : Unit) dir name => dir ++ name) () "/" ["a.txt", "b"]
    [(0, .error ⟨"EACCES", "a.txt"⟩), (1, .ok ⟨true, false, false, 0⟩)] (by decide)
    (List.Perm.refl _)
  exact ⟨a, ha, hfail (by decide), hsettled⟩


/-! ## The read adapter: construction and the simple operations -/

/-- C8: constructing the read adapter, directly or through `__into_binding`,
throws if and only if the handle is absent, and then it throws the error of the
source and returns no instance; with a present handle it returns an instance;
in both cases no host method is called while the constructor runs. -/
theorem readable_construction {H : Type} (join : H → Path → String → Path)
    (fs : Option H) :
    ((∃ err, (ThreadsafeReadableNodeFS.new join fs).outcome = .error err) ↔ fs = none) ∧
    ((∃ a, (ThreadsafeReadableNodeFS.new join fs).outcome = .ok a) ↔ fs ≠ none) ∧
    (∃ err, (ThreadsafeReadableNodeFS.new join (none : Option H)).outcome = .error err ∧
      err.message = "ThreadsafeReadableNodeFS requires an InputFileSystem") ∧
    (ThreadsafeReadableNodeFS.new join fs).hostCalls = [] ∧
    (ThreadsafeReadableNodeFS.__into_binding join fs).hostCalls = [] ∧
    ((∃ err, (ThreadsafeReadableNodeFS.__into_binding join fs).outcome = .error err) ↔
      fs = none) ∧
    ((∃ a, (ThreadsafeReadableNodeFS.__into_binding join fs).outcome = .ok a) ↔
      fs ≠ none) := by
  cases fs with
  | none => simp [ThreadsafeReadableNodeFS.new, ThreadsafeReadableNodeFS.__into_binding]
  | some h => simp [ThreadsafeReadableNodeFS.new, ThreadsafeReadableNodeFS.__into_binding]

/-- C9: on an adapter over a present handle, each of `readFile`, `stat`,
`lstat` and `realpath` called with the path `p` makes one call of the host
method of the same name with `p` and invokes the completion callback once.  If
the host reports the error `e`, the operation is rejected with `e`; otherwise
`readFile` and `realpath` resolve with the value of the host, and `stat` and
`lstat` resolve with the three flags of the stat result of the host. -/
theorem simple_read_translation {H : Type} (join : H → Path → String → Path)
    (fs : H) (p : Path) :
    ∃ a, (ThreadsafeReadableNodeFS.new join (some fs)).outcome = .ok a ∧
      (∀ e, a.readFile p (.error e) =
        { hostCalls := [.readFile p], callbacks := [.err e], result := .rejected e }) ∧
      (∀ content, a.readFile p (.ok content) =
        { hostCalls := [.readFile p], callbacks := [.ok content],
          result := .resolved content }) ∧
      (∀ e, a.stat p (.error e) =
        { hostCalls := [.stat p], callbacks := [.err e], result := .rejected e }) ∧
      (∀ s, a.stat p (.ok s) =
        { hostCalls := [.stat p],
          callbacks :=
            [.ok { isDir := s.isDirectory, isFile := s.isFile, isSymlink := s.isSymbolicLink }],
          result :=
            .resolved
              { isDir := s.isDirectory, isFile := s.isFile, isSymlink := s.isSymbolicLink } }) ∧
      (∀ e, a.lstat p (.error e) =
        { hostCalls := [.lstat p], callbacks := [.err e], result := .rejected e }) ∧
      (∀ s, a.lstat p (.ok s) =
        { hostCalls := [.lstat p],
          callbacks :=
            [.ok { isDir := s.isDirectory, isFile := s.isFile, isSymlink := s.isSymbolicLink }],
          result :=
            .resolved
              { isDir := s.isDirectory, isFile := s.isFile, isSymlink := s.isSymbolicLink } }) ∧
      (∀ e, a.realpath p (.error e) =
        { hostCalls := [.realpath p], callbacks := [.err e], result := .rejected e }) ∧
      (∀ resolved, a.realpath p (.ok resolved) =
        { hostCalls := [.realpath p], callbacks := [.ok resolved],
          result := .resolved resolved }) := by
  refine ⟨_, rfl, ?_, ?_, ?_, ?_, ?_, ?_, ?_, ?_⟩ <;> intro x <;> rfl

/-- Witness of C9, the scenario of the spec: the handle holds "/a.txt" with
content "1", so the host answers the read with "1"; `readFile("/a.txt")`
resolves with "1". -/
theorem simple_read_translation_witness :
    ∃ a, (ThreadsafeReadableNodeFS.new (fun (_ : Unit) dir name => dir ++ name)
        (some ())).outcome = .ok a ∧
      (a.readFile "/a.txt" (.ok "1")).result = .resolved "1" ∧
      (a.readFile "/a.txt" (.ok "1")).hostCalls = [.readFile "/a.txt"] := by
  obtain ⟨a, ha, _, hok, _⟩ := simple_read_translation
    (fun (_ : Unit) dir name => dir ++ name) () "/a.txt"
  exact ⟨a, ha, by rw [hok "1"], by rw [hok "1"]⟩

/-! ## The write adapter -/

/-- C7: a write adapter constructed without a handle, directly or through
`__into_binding`, is constructed without error and without host call, and has
the five operations; each of them, on any arguments and any backing store,
completes with no value, invokes no host method and leaves the store as it
was. -/
theorem noop_write_adapter {σ : Type}
    (mkdirp rmrf : OutputFileSystem σ → Path → σ → Except HostError (Option String) × σ) :
    ∃ a, (ThreadsafeWritableNodeFS.new mkdirp rmrf none).outcome = .ok a ∧
      (ThreadsafeWritableNodeFS.__into_binding mkdirp rmrf none).outcome = .ok a ∧
      (ThreadsafeWritableNodeFS.new mkdirp rmrf none).hostCalls = [] ∧
      (∀ name content store, a.writeFile name content store =
        ({ hostCalls := [], callbacks := [], result := .resolved () }, store)) ∧
      (∀ name store, a.removeFile name store =
        ({ hostCalls := [], callbacks := [], result := .resolved () }, store)) ∧
      (∀ name store, a.mkdir name store =
        ({ hostCalls := [], callbacks := [], result := .resolved () }, store)) ∧
      (∀ name store, a.mkdirp name store =
        ({ hostCalls := [], callbacks := [], result := .resolved none }, store)) ∧
      (∀ name store, a.removeDirAll name store =
        ({ hostCalls := [], callbacks := [], result := .resolved none }, store)) := by
  refine ⟨_, rfl, rfl, rfl, ?_, ?_, ?_, ?_, ?_⟩ <;> intros <;> rfl

/-- C10: on a write adapter over the handle `fs`, `writeFile(n, c)` makes one
host call, `fs.writeFile(n, c)`, and leaves the store that this call leaves.
If the host reports the error `e` the operation is rejected with `e`.  If the
host reports success the operation resolves, and when the store keeps what is
written to it (`read` after a successful `fs.writeFile(n, c)` gives `c`), reading
`n` from the store afterwards gives exactly `c`. -/
theorem writeFile_round_trip {σ : Type}
    (mkdirp rmrf : OutputFileSystem σ → Path → σ → Except HostError (Option String) × σ)
    (fs : OutputFileSystem σ) (read : Path → σ → Option Content)
    (n : Path) (c : Content) (store : σ)
    (hkeeps : ∀ s, (fs.writeFile n c s).1 = .ok () → read n (fs.writeFile n c s).2 = some c) :
    ∃ a, (ThreadsafeWritableNodeFS.new mkdirp rmrf (some fs)).outcome = .ok a ∧
      (a.writeFile n c store).1.hostCalls = [.writeFile n c] ∧
      (a.writeFile n c store).2 = (fs.writeFile n c store).2 ∧
      (∀ e, (fs.writeFile n c store).1 = .error e →
        (a.writeFile n c store).1.result = .rejected e) ∧
      ((fs.writeFile n c store).1 = .ok () →
        (a.writeFile n c store).1.result = .resolved () ∧
        read n (a.writeFile n c store).2 = some c) := by
  refine ⟨_, rfl, rfl, rfl, ?_, ?_⟩
  · intro e he
    simp [memoizeFn, promisifyOn, promisify, hostMethod, he, settle]
  · intro hok
    refine ⟨?_, hkeeps store hok⟩
    simp [memoizeFn, promisifyOn, promisify, hostMethod, hok, settle]

/-- Witness of C10, the scenario of the spec: `writeFile("/out.js",
"console.log(1);")` on an adapter over an empty volume, then a direct read of
"/out.js" from the volume. -/
theorem writeFile_round_trip_witness :
    ∃ a, (ThreadsafeWritableNodeFS.new Volume.helper Volume.helper
        (some Volume.fs)).outcome = .ok a ∧
      (a.writeFile "/out.js" "console.log(1);" []).1.result = .resolved () ∧
      Volume.read "/out.js" (a.writeFile "/out.js" "console.log(1);" []).2 =
        some "console.log(1);" := by
  obtain ⟨a, ha, _, _, _, hok⟩ := writeFile_round_trip Volume.helper Volume.helper Volume.fs
    Volume.read "/out.js" "console.log(1);" []
    (fun s _ => by simp [Volume.read, Volume.fs, List.lookup])
  exact ⟨a, ha, hok rfl⟩


end Rspack
